import Mathlib

/-!
Verification of the MHTML-to-HTML reference-resolution and rewriting engine
(`mhtml_to_html.py`).  The Python source is shallowly embedded: strings are
lists of characters, byte payloads are lists of naturals, the filesystem side
effects are recorded as explicit lists of written files, and the pieces of the
Python standard library that the script calls (codecs, `mimetypes`) are
abstracted as an explicit environment of functions.
-/

set_option maxHeartbeats 1000000

/-- Strings of the embedded program: Python `str` values as lists of characters. -/
abbrev Str := List Char

/-- Characters kept verbatim by `safe_name`: the class `[A-Za-z0-9._-]`. -/
def isSafeChar (c : Char) : Bool :=
  c.isAlphanum || c = '.' || c = '_' || c = '-'

/-- First regex substitution of `safe_name`: every character outside the safe
class becomes an underscore. -/
def mapUnsafeToUnderscore (s : Str) : Str :=
  s.map (fun c => if isSafeChar c then c else '_')

/-- Second regex substitution of `safe_name`: collapse runs of underscores. -/
def collapseUnderscores : Str → Str
  | [] => []
  | [c] => [c]
  | c :: d :: rest =>
    if c = '_' ∧ d = '_' then collapseUnderscores (d :: rest)
    else c :: collapseUnderscores (d :: rest)

/-- Python `str.strip(bad)`: remove leading and trailing characters drawn from `bad`. -/
def stripChars (bad : List Char) (s : Str) : Str :=
  ((s.dropWhile (fun c => bad.contains c)).reverse.dropWhile (fun c => bad.contains c)).reverse

/-- `safe_name` from the source: sanitize, collapse underscores, strip `.`/`_`,
and fall back to `"file"` when the result is empty. -/
def safe_name (name : Str) : Str :=
  let t := stripChars ['.', '_'] (collapseUnderscores (mapUnsafeToUnderscore name))
  if t = [] then ("file").data else t

/-- Result of `urllib.parse.urlparse`, restricted to the components the script uses. -/
structure UrlParts where
  scheme : Str
  netloc : Str
  path : Str
  query : Str
  fragment : Str
deriving DecidableEq

/-- Characters allowed in a URL scheme after the initial letter. -/
def isSchemeChar (c : Char) : Bool :=
  c.isAlphanum || c = '+' || c = '-' || c = '.'

/-- Split a list at the first occurrence of a delimiter, if any. -/
def splitFirst (d : Char) : Str → Option (Str × Str)
  | [] => none
  | c :: rest =>
    if c = d then some ([], rest)
    else
      match splitFirst d rest with
      | some (a, b) => some (c :: a, b)
      | none => none

/-- Model of `urllib.parse.urlparse`: extract scheme, network location, path,
query and fragment the way CPython's `urlsplit` does. -/
def urlparse (url : Str) : UrlParts :=
  let schemeRest : Str × Str :=
    match splitFirst ':' url with
    | some (pre, post) =>
      if pre ≠ [] ∧ (pre.headD ' ').isAlpha ∧ pre.all isSchemeChar then
        (pre.map Char.toLower, post)
      else ([], url)
    | none => ([], url)
  let scheme := schemeRest.1
  let rest := schemeRest.2
  let netlocRest : Str × Str :=
    if ("//").data.isPrefixOf rest then
      let r := rest.drop 2
      (r.takeWhile (fun c => c ≠ '/' && c ≠ '?' && c ≠ '#'),
       r.dropWhile (fun c => c ≠ '/' && c ≠ '?' && c ≠ '#'))
    else ([], rest)
  let netloc := netlocRest.1
  let rest2 := netlocRest.2
  let restFrag : Str × Str :=
    match splitFirst '#' rest2 with
    | some (a, b) => (a, b)
    | none => (rest2, [])
  let pathQuery : Str × Str :=
    match splitFirst '?' restFrag.1 with
    | some (a, b) => (a, b)
    | none => (restFrag.1, [])
  ⟨scheme, netloc, pathQuery.1, pathQuery.2, restFrag.2⟩

/-- `os.path.basename`: the final path segment, after the last separator. -/
def basename (p : Str) : Str :=
  (p.reverse.takeWhile (fun c => c ≠ '/')).reverse

/-- The configured origin `ORIGIN = "https://data.seattle.gov"`. -/
def ORIGIN : Str := ("https://data.seattle.gov").data

/-- Decimal digit character, as produced by Python string formatting. -/
def digitChar (d : Nat) : Char := Char.ofNat (48 + d)

/-- Fuelled decimal rendering of a natural number. -/
def natToDecimalF : Nat → Nat → Str
  | 0, _ => []
  | f + 1, n =>
    if n < 10 then [digitChar n]
    else natToDecimalF f (n / 10) ++ [digitChar (n % 10)]

/-- Decimal rendering of a natural number, as Python `f"{i}"` produces it. -/
def natToDecimal (n : Nat) : Str := natToDecimalF (n + 1) n

/-- Reading a decimal string back as a number; used to prove `natToDecimal` injective. -/
def decimalToNat (s : Str) : Nat :=
  s.foldl (fun acc c => acc * 10 + (c.toNat - 48)) 0

theorem natToDecimalF_congr :
    ∀ f f' n, n < f → n < f' → natToDecimalF f n = natToDecimalF f' n := by
  intro f
  induction f with
  | zero => intro f' n h; omega
  | succ f ih =>
    intro f' n h h'
    match f', h' with
    | f' + 1, h' =>
      simp only [natToDecimalF]
      by_cases h10 : n < 10
      · simp [h10]
      · have hn : 0 < n := by omega
        have hd : n / 10 < n := Nat.div_lt_self hn (by omega)
        simp only [if_neg h10]
        rw [ih f' (n / 10) (by omega) (by omega)]

theorem natToDecimal_unfold (n : Nat) (f : Nat) (h : n < f) :
    natToDecimalF f n = natToDecimal n :=
  natToDecimalF_congr f (n + 1) n h (Nat.lt_succ_self n)

theorem digitChar_toNat (d : Nat) (h : d < 10) : (digitChar d).toNat = 48 + d := by
  interval_cases d <;> rfl

theorem decimalToNat_natToDecimalF (f : Nat) :
    ∀ n acc, n < f →
      (natToDecimalF f n).foldl (fun acc c => acc * 10 + (c.toNat - 48)) acc
        = acc * 10 ^ (natToDecimalF f n).length + n := by
  induction f with
  | zero => intro n acc h; omega
  | succ f ih =>
    intro n acc h
    by_cases h10 : n < 10
    · simp only [natToDecimalF, if_pos h10, List.foldl, List.length_singleton]
      rw [digitChar_toNat n h10]
      omega
    · have hn : 0 < n := by omega
      have hd : n / 10 < n := Nat.div_lt_self hn (by omega)
      simp only [natToDecimalF, if_neg h10]
      rw [List.foldl_append, ih (n / 10) acc (by omega)]
      simp only [List.foldl, List.length_append, List.length_singleton]
      rw [digitChar_toNat (n % 10) (Nat.mod_lt n (by omega)), pow_succ, ← mul_assoc]
      have hmod : 10 * (n / 10) + n % 10 = n := Nat.div_add_mod n 10
      generalize acc * 10 ^ (natToDecimalF f (n / 10)).length = B
      omega

theorem decimalToNat_natToDecimal (n : Nat) : decimalToNat (natToDecimal n) = n := by
  have := decimalToNat_natToDecimalF (n + 1) n 0 (Nat.lt_succ_self n)
  simpa [decimalToNat, natToDecimal] using this

theorem natToDecimal_injective : Function.Injective natToDecimal := by
  intro a b h
  have ha := decimalToNat_natToDecimal a
  have hb := decimalToNat_natToDecimal b
  rw [h] at ha
  omega

theorem natToDecimal_ne_nil (n : Nat) : natToDecimal n ≠ [] := by
  unfold natToDecimal natToDecimalF
  by_cases h10 : n < 10 <;> simp [h10]

/-- The candidate file names tried by `pick_filename`: first `base + ext`, then
`base_1 + ext`, `base_2 + ext`, and so on. -/
def candName (base ext : Str) : Nat → Str
  | 0 => base ++ ext
  | j + 1 => base ++ ('_' :: natToDecimal (j + 1)) ++ ext

theorem candName_injective (base ext : Str) : Function.Injective (candName base ext) := by
  intro i j h
  match i, j with
  | 0, 0 => rfl
  | 0, j + 1 =>
    exfalso
    have := congrArg List.length h
    simp only [candName, List.length_append, List.length_cons] at this
    omega
  | i + 1, 0 =>
    exfalso
    have := congrArg List.length h
    simp only [candName, List.length_append, List.length_cons] at this
    omega
  | i + 1, j + 1 =>
    simp only [candName, List.append_assoc] at h
    have h2 := List.append_cancel_left h
    simp only [List.cons_eq_cons, true_and] at h2
    have h3 := List.append_cancel_right h2
    have h4 := (List.cons_eq_cons.mp h3).2
    have := natToDecimal_injective h4
    omega

/-- The collision loop of `pick_filename`, with explicit fuel.  With fuel
`used.card + 1` the loop always finds an unused candidate. -/
def pickLoopF (base ext : Str) (used : Finset Str) : Nat → Nat → Str
  | 0, i => candName base ext i
  | f + 1, i =>
    if candName base ext i ∈ used then pickLoopF base ext used f (i + 1)
    else candName base ext i

theorem pickLoopF_not_mem (base ext : Str) (used : Finset Str) :
    ∀ f i, (∃ j, j < f ∧ candName base ext (i + j) ∉ used) →
      pickLoopF base ext used f i ∉ used := by
  intro f
  induction f with
  | zero =>
    intro i h
    obtain ⟨j, hj, _⟩ := h
    exact absurd hj (by omega)
  | succ f ih =>
    intro i h
    by_cases hc : candName base ext i ∈ used
    · simp only [pickLoopF, if_pos hc]
      obtain ⟨j, hj, hfree⟩ := h
      match j with
      | 0 => exact absurd hfree (by simpa using hc)
      | j + 1 =>
        refine ih (i + 1) ⟨j, by omega, ?_⟩
        have heq : i + 1 + j = i + (j + 1) := by omega
        rw [heq]
        exact hfree
    · simp only [pickLoopF, if_neg hc]
      exact hc

theorem exists_free_candidate (base ext : Str) (used : Finset Str) :
    ∃ j, j < used.card + 1 ∧ candName base ext (0 + j) ∉ used := by
  by_contra h
  push_neg at h
  have hsub : (Finset.range (used.card + 1)).image (candName base ext) ⊆ used := by
    intro x hx
    obtain ⟨j, hj, rfl⟩ := Finset.mem_image.mp hx
    have := h j (Finset.mem_range.mp hj)
    simpa using this
  have hcard := Finset.card_le_card hsub
  rw [Finset.card_image_of_injective _ (candName_injective base ext),
    Finset.card_range] at hcard
  omega

/-- The Python-standard-library services the script relies on, abstracted as
functions: `mimetypes.guess_extension`, `bytes.decode` for a named charset
(`none` models a `LookupError` for an unknown codec), UTF-8 decoding with
replacement (total), strict UTF-8 decoding (`none` models `UnicodeDecodeError`),
Latin-1 decoding with replacement (total) and UTF-8 encoding. -/
structure PyEnv where
  guessExtension : Str → Option Str
  decode : List Nat → Str → Option Str
  decodeUtf8Replace : List Nat → Str
  decodeUtf8Strict : List Nat → Option Str
  decodeLatin1Replace : List Nat → Str
  encodeUtf8 : Str → List Nat

/-- One MIME part as the `email` parser presents it to `convert`. -/
structure PyPart where
  contentType : Str
  contentLocation : Option Str
  contentID : Option Str
  isMultipart : Bool
  payload : Option (List Nat)
  charset : Option Str

/-- Python truthiness of an optional header string: absent and empty both count
as false. -/
def truthy (o : Option Str) : Option Str :=
  match o with
  | some l => if l = [] then none else some l
  | none => none

/-- The fixed content-type-to-extension table of `ext_for_mime`. -/
def knownExtTable : List (Str × Str) :=
  [(("text/css").data, (".css").data),
   (("application/javascript").data, (".js").data),
   (("text/javascript").data, (".js").data),
   (("image/png").data, (".png").data),
   (("image/jpeg").data, (".jpg").data),
   (("image/jpg").data, (".jpg").data),
   (("image/gif").data, (".gif").data),
   (("image/svg+xml").data, (".svg").data),
   (("font/woff2").data, (".woff2").data),
   (("font/woff").data, (".woff").data),
   (("font/ttf").data, (".ttf").data),
   (("application/font-woff2").data, (".woff2").data),
   (("application/font-woff").data, (".woff").data)]

/-- Association-list lookup, Python dictionary style. -/
def lookupAssoc (m : List (Str × Str)) (k : Str) : Option Str :=
  match m with
  | [] => none
  | (k0, v0) :: rest => if k0 = k then some v0 else lookupAssoc rest k

/-- `ext_for_mime`: the known table first, then a `mimetypes` guess, else no
extension. -/
def ext_for_mime (guess : Str → Option Str) (mime : Str) : Str :=
  match lookupAssoc knownExtTable mime with
  | some e => e
  | none => (guess mime).getD []

/-- The base-name derivation of `pick_filename`: Content-Location basename
first, else sanitized Content-ID, else the fixed fallback `"asset"`. -/
def deriveBase (p : PyPart) : Str :=
  match truthy p.contentLocation with
  | some loc =>
    let parsed := urlparse loc
    let bc := if basename parsed.path ≠ [] then basename parsed.path else safe_name parsed.netloc
    safe_name bc
  | none =>
    match truthy p.contentID with
    | some cid => safe_name (stripChars ['<', '>'] cid)
    | none => ("asset").data

/-- `pick_filename`: derive base and extension, then run the collision loop;
the chosen name is added to the used-name set. -/
def pick_filename (env : PyEnv) (p : PyPart) (used : Finset Str) : Str × Finset Str :=
  let base := deriveBase p
  let ext := ext_for_mime env.guessExtension p.contentType
  let fn := pickLoopF base ext used (used.card + 1) 0
  (fn, insert fn used)

theorem safe_name_ne_nil (s : Str) : safe_name s ≠ [] := by
  unfold safe_name
  by_cases h : stripChars ['.', '_'] (collapseUnderscores (mapUnsafeToUnderscore s)) = [] <;>
    simp [h]

theorem deriveBase_ne_nil (p : PyPart) : deriveBase p ≠ [] := by
  unfold deriveBase
  match truthy p.contentLocation with
  | some loc => exact safe_name_ne_nil _
  | none =>
    match truthy p.contentID with
    | some cid => exact safe_name_ne_nil _
    | none => simp

theorem candName_ne_nil (base ext : Str) (hb : base ≠ []) (j : Nat) :
    candName base ext j ≠ [] := by
  cases j <;> simp [candName, hb]

theorem pickLoopF_ne_nil (base ext : Str) (used : Finset Str) (hb : base ≠ []) :
    ∀ f i, pickLoopF base ext used f i ≠ [] := by
  intro f
  induction f with
  | zero => intro i; exact candName_ne_nil base ext hb i
  | succ f ih =>
    intro i
    by_cases hc : candName base ext i ∈ used
    · simp only [pickLoopF, if_pos hc]; exact ih (i + 1)
    · simp only [pickLoopF, if_neg hc]; exact candName_ne_nil base ext hb i

/-- C10: `pick_filename` always terminates with a non-empty file name that is
not in the input used-name set, and returns the set extended with that name.
(Termination is witnessed by the function being total: the collision loop needs
at most `used.card + 1` probes, by the pigeonhole argument
`exists_free_candidate`.) -/
theorem c10_pick_filename_total (env : PyEnv) (p : PyPart) (used : Finset Str) :
    (pick_filename env p used).1 ∉ used ∧ (pick_filename env p used).1 ≠ [] ∧
      (pick_filename env p used).2 = insert (pick_filename env p used).1 used := by
  refine ⟨?_, ?_, rfl⟩
  · exact pickLoopF_not_mem _ _ used (used.card + 1) 0
      (exists_free_candidate (deriveBase p) (ext_for_mime env.guessExtension p.contentType) used)
  · exact pickLoopF_ne_nil _ _ used (deriveBase_ne_nil p) (used.card + 1) 0

/-- Python `old in s` for strings: `old` occurs as a contiguous substring of `s`. -/
def containsSub (s old : Str) : Bool :=
  match s with
  | [] => old.isEmpty
  | _ :: rest => old.isPrefixOf s || containsSub rest old

/-- Fuelled model of Python `str.replace(old, new)`: scan left to right and
replace every non-overlapping occurrence.  The `old ≠ []` guard never fires in
the program, where all replacement keys are non-empty. -/
def replaceAllF (old new : Str) : Nat → Str → Str
  | 0, s => s
  | f + 1, s =>
    match s with
    | [] => []
    | c :: rest =>
      if old.isPrefixOf (c :: rest) ∧ old ≠ [] then
        new ++ replaceAllF old new f ((c :: rest).drop old.length)
      else c :: replaceAllF old new f rest

/-- Python `s.replace(old, new)`. -/
def replaceAll (s old new : Str) : Str := replaceAllF old new s.length s

theorem replaceAllF_congr (old new : Str) :
    ∀ f f' s, s.length ≤ f → s.length ≤ f' → replaceAllF old new f s = replaceAllF old new f' s := by
  intro f
  induction f with
  | zero =>
    intro f' s h h'
    have : s = [] := List.length_eq_zero.mp (by omega)
    subst this
    cases f' <;> rfl
  | succ f ih =>
    intro f' s h h'
    match s with
    | [] => cases f' <;> rfl
    | c :: rest =>
      match f', h' with
      | f' + 1, h' =>
        simp only [replaceAllF]
        by_cases hc : old.isPrefixOf (c :: rest) ∧ old ≠ []
        · simp only [if_pos hc]
          have hol : 1 ≤ old.length := by
            cases old with
            | nil => exact absurd rfl hc.2
            | cons x xs => simp
          have hlen : ((c :: rest).drop old.length).length ≤ f := by
            simp only [List.length_drop, List.length_cons] at *
            omega
          have hlen' : ((c :: rest).drop old.length).length ≤ f' := by
            simp only [List.length_drop, List.length_cons] at *
            omega
          rw [ih f' _ hlen hlen']
        · simp only [if_neg hc]
          have hr : rest.length ≤ f := by simp at h; omega
          have hr' : rest.length ≤ f' := by simp at h'; omega
          rw [ih f' rest hr hr']

theorem replaceAll_nil (old new : Str) : replaceAll [] old new = [] := rfl

theorem replaceAll_cons_pos (c : Char) (rest old new : Str)
    (h : old.isPrefixOf (c :: rest)) (hne : old ≠ []) :
    replaceAll (c :: rest) old new = new ++ replaceAll ((c :: rest).drop old.length) old new := by
  unfold replaceAll
  simp only [List.length_cons, replaceAllF, if_pos (And.intro h hne)]
  congr 1
  apply replaceAllF_congr
  · simp only [List.length_drop, List.length_cons]
    have : 1 ≤ old.length := by
      cases old with
      | nil => exact absurd rfl hne
      | cons x xs => simp
    omega
  · simp

theorem replaceAll_cons_neg (c : Char) (rest old new : Str)
    (h : ¬ old.isPrefixOf (c :: rest)) :
    replaceAll (c :: rest) old new = c :: replaceAll rest old new := by
  unfold replaceAll
  simp only [List.length_cons, replaceAllF]
  rw [if_neg (by intro hc; exact h hc.1)]

theorem replaceAll_head_match (old r new : Str) (hne : old ≠ []) :
    replaceAll (old ++ r) old new = new ++ replaceAll r old new := by
  match old with
  | [] => exact absurd rfl hne
  | o :: ot =>
    have hpre : (o :: ot).isPrefixOf ((o :: ot) ++ r) :=
      List.isPrefixOf_iff_prefix.mpr (List.prefix_append (o :: ot) r)
    rw [show ((o :: ot) ++ r) = o :: (ot ++ r) by simp] at hpre ⊢
    rw [replaceAll_cons_pos o (ot ++ r) (o :: ot) new hpre hne]
    congr 1
    rw [show (o :: (ot ++ r)) = (o :: ot) ++ r by simp, List.drop_left]

theorem replaceAll_of_not_contains (old new : Str) :
    ∀ s, containsSub s old = false → replaceAll s old new = s := by
  intro s
  induction s with
  | nil => intro h; rfl
  | cons c rest ih =>
    intro h
    simp only [containsSub, Bool.or_eq_false_iff] at h
    rw [replaceAll_cons_neg c rest old new (by simp [h.1]), ih h.2]

theorem not_isPrefixOf_of_head_ne (old : Str) (d c : Char) (rest : Str)
    (hh : old.head? = some d) (hc : c ≠ d) : ¬ old.isPrefixOf (c :: rest) := by
  match old, hh with
  | d :: ot, rfl =>
    intro h
    have := List.isPrefixOf_iff_prefix.mp h
    obtain ⟨t, ht⟩ := this
    simp only [List.cons_append, List.cons_eq_cons] at ht
    exact hc ht.1.symm

/-- The materialized form of one non-primary part: the `asset_info` dictionary
built by `convert`. -/
structure AssetInfo where
  content_type : Str
  local_path : Str
  cid : Option Str
  location : Option Str

/-- Python dictionary assignment `m[k] = v`: update in place when the key
exists (keeping its original position), else append. -/
def insertAssoc (m : List (Str × Str)) (k v : Str) : List (Str × Str) :=
  if m.any (fun p => p.1 == k) then m.map (fun p => if p.1 == k then (k, v) else p)
  else m ++ [(k, v)]

/-- The loop body of `build_replacements` for one asset: register the
`cid:` key, the literal Content-Location key, and — only for an http/https
location on the configured origin's authority with a non-empty path — the bare
path key. -/
def registerInfo (repl : List (Str × Str)) (info : AssetInfo) : List (Str × Str) :=
  let repl1 :=
    match truthy info.cid with
    | some c => insertAssoc repl (("cid:").data ++ c) info.local_path
    | none => repl
  match truthy info.location with
  | none => repl1
  | some loc =>
    let repl2 := insertAssoc repl1 loc info.local_path
    let parsed := urlparse loc
    if (parsed.scheme = ("http").data ∨ parsed.scheme = ("https").data) ∧
        parsed.netloc = (urlparse ORIGIN).netloc ∧ parsed.path ≠ [] then
      insertAssoc repl2 parsed.path info.local_path
    else repl2

/-- Python `sorted(keys, key=len, reverse=True)` comparison: `a` may precede `b`
when `b` is no longer than `a`. -/
def lenDescBool (a b : Str) : Bool := Nat.ble b.length a.length

/-- `build_replacements`: fold the registration loop over all assets, then sort
the keys by descending length. -/
def build_replacements (infos : List AssetInfo) : List Str × List (Str × Str) :=
  let repl := infos.foldl registerInfo []
  ((repl.map Prod.fst).mergeSort lenDescBool, repl)

/-- Pass 1 of the Document Rewriter: the `for k in keys: rewritten =
rewritten.replace(k, repl[k])` loop of `convert`. -/
def applyReplacements (keys : List Str) (repl : List (Str × Str)) (t : Str) : Str :=
  keys.foldl (fun acc k => replaceAll acc k ((lookupAssoc repl k).getD [])) t

theorem applyReplacements_of_no_occurrence (keys : List Str) (repl : List (Str × Str)) (t : Str)
    (h : ∀ k ∈ keys, containsSub t k = false) :
    applyReplacements keys repl t = t := by
  induction keys with
  | nil => rfl
  | cons k0 ks ih =>
    unfold applyReplacements
    simp only [List.foldl_cons]
    rw [replaceAll_of_not_contains k0 _ t (h k0 (by simp))]
    exact ih (fun k hk => h k (by simp [hk]))

theorem containsSub_true_iff : ∀ (s old : Str), containsSub s old = true ↔ old <:+: s := by
  intro s
  induction s with
  | nil =>
    intro old
    simp only [containsSub, List.isEmpty_iff, List.infix_nil]
  | cons c rest ih =>
    intro old
    simp only [containsSub, Bool.or_eq_true, List.isPrefixOf_iff_prefix, ih,
      List.infix_cons_iff]

/-- Two assets whose Resolver map makes Pass 1 non-idempotent: the second
asset's Content-Location coincides with the first asset's local path. -/
def c8infos : List AssetInfo :=
  [⟨("image/png").data, ("assets/y.png").data, none, some (("http://x/y").data)⟩,
   ⟨("application/octet-stream").data, ("assets/q.bin").data, none, some (("assets/y.png").data)⟩]

unseal List.merge List.mergeSort in
/-- C8 counterexample: for this Resolver-produced ReplacementMap the
literal-substitution pass is not idempotent — a second application changes the
first pass's output again, because one key occurs in another key's substituted
local path. -/
theorem c8_counterexample :
    applyReplacements (build_replacements c8infos).1 (build_replacements c8infos).2
        (applyReplacements (build_replacements c8infos).1 (build_replacements c8infos).2
          (("http://x/y").data))
      ≠ applyReplacements (build_replacements c8infos).1 (build_replacements c8infos).2
          (("http://x/y").data) := by
  decide

/-- C8 amended: the literal-substitution pass is idempotent on its own output
provided no ReplacementMap key still occurs in that output (which the
counterexample shows is not guaranteed by unique local paths alone). -/
theorem c8_idempotent_amended (keys : List Str) (repl : List (Str × Str)) (t : Str)
    (h : ∀ k ∈ keys, containsSub (applyReplacements keys repl t) k = false) :
    applyReplacements keys repl (applyReplacements keys repl t)
      = applyReplacements keys repl t :=
  applyReplacements_of_no_occurrence keys repl (applyReplacements keys repl t) h

unseal List.merge List.mergeSort in
/-- Witness for the amended C8 at a concrete archive-derived map and document. -/
theorem c8_witness :
    applyReplacements (build_replacements [⟨("image/png").data, ("assets/img.png").data,
        some (("img1").data), none⟩]).1
      (build_replacements [⟨("image/png").data, ("assets/img.png").data,
        some (("img1").data), none⟩]).2
      (applyReplacements (build_replacements [⟨("image/png").data, ("assets/img.png").data,
        some (("img1").data), none⟩]).1
        (build_replacements [⟨("image/png").data, ("assets/img.png").data,
          some (("img1").data), none⟩]).2
        (("<img src=cid:img1>").data))
      = applyReplacements (build_replacements [⟨("image/png").data, ("assets/img.png").data,
          some (("img1").data), none⟩]).1
        (build_replacements [⟨("image/png").data, ("assets/img.png").data,
          some (("img1").data), none⟩]).2
        (("<img src=cid:img1>").data) :=
  c8_idempotent_amended _ _ _ (by decide)

theorem not_mem_fst_of_any_false (m : List (Str × Str)) (k : Str)
    (h : m.any (fun p => p.1 == k) = false) : k ∉ m.map Prod.fst := by
  intro hmem
  obtain ⟨p, hp, hpk⟩ := List.mem_map.mp hmem
  have := List.any_eq_false.mp h p hp
  exact this (by simp [hpk])

theorem nodup_fst_insertAssoc (m : List (Str × Str)) (k v : Str)
    (h : (m.map Prod.fst).Nodup) : ((insertAssoc m k v).map Prod.fst).Nodup := by
  unfold insertAssoc
  cases hany : m.any (fun p => p.1 == k) with
  | true =>
    simp only [hany, if_true, List.map_map]
    have heq : m.map (Prod.fst ∘ fun p => if p.1 == k then (k, v) else p) = m.map Prod.fst := by
      apply List.map_congr_left
      intro p hp
      by_cases hk : p.1 == k
      · simp only [Function.comp_apply, if_pos hk]
        exact (eq_of_beq hk).symm
      · simp only [Function.comp_apply, if_neg hk]
    rw [heq]
    exact h
  | false =>
    simp only [hany, Bool.false_eq_true, if_false, List.map_append, List.map_cons,
      List.map_nil]
    rw [List.nodup_append]
    refine ⟨h, List.nodup_singleton k, ?_⟩
    intro x hx hx2
    simp only [List.mem_singleton] at hx2
    subst hx2
    exact not_mem_fst_of_any_false m x hany hx

theorem nodup_fst_registerInfo (m : List (Str × Str)) (info : AssetInfo)
    (h : (m.map Prod.fst).Nodup) : ((registerInfo m info).map Prod.fst).Nodup := by
  unfold registerInfo
  have h1 : ∀ mm : List (Str × Str), (mm.map Prod.fst).Nodup →
      (((match truthy info.location with
        | none => mm
        | some loc =>
          let repl2 := insertAssoc mm loc info.local_path
          let parsed := urlparse loc
          if (parsed.scheme = ("http").data ∨ parsed.scheme = ("https").data) ∧
              parsed.netloc = (urlparse ORIGIN).netloc ∧ parsed.path ≠ [] then
            insertAssoc repl2 parsed.path info.local_path
          else repl2) : List (Str × Str)).map Prod.fst).Nodup := by
    intro mm hmm
    cases truthy info.location with
    | none => exact hmm
    | some loc =>
      simp only []
      split
      · exact nodup_fst_insertAssoc _ _ _ (nodup_fst_insertAssoc _ _ _ hmm)
      · exact nodup_fst_insertAssoc _ _ _ hmm
  cases truthy info.cid with
  | none => exact h1 m h
  | some c => exact h1 _ (nodup_fst_insertAssoc _ _ _ h)

theorem nodup_fst_foldl (infos : List AssetInfo) :
    ∀ m, (m.map Prod.fst).Nodup → ((infos.foldl registerInfo m).map Prod.fst).Nodup := by
  induction infos with
  | nil => intro m h; exact h
  | cons i is ih =>
    intro m h
    exact ih _ (nodup_fst_registerInfo m i h)

theorem build_replacements_keys_nodup (infos : List AssetInfo) :
    (build_replacements infos).1.Nodup := by
  unfold build_replacements
  exact (List.mergeSort_perm _ _).symm.nodup (nodup_fst_foldl infos [] (by simp))

theorem build_replacements_keys_sorted (infos : List AssetInfo) :
    (build_replacements infos).1.Pairwise (fun a b => lenDescBool a b = true) := by
  unfold build_replacements
  apply List.sorted_mergeSort
  · intro a b c hab hbc
    simp only [lenDescBool, Nat.ble_eq] at *
    omega
  · intro a b
    simp only [lenDescBool, Bool.or_eq_true, Nat.ble_eq]
    omega

theorem replaceAll_self (old new : Str) (hne : old ≠ []) : replaceAll old old new = new := by
  have h := replaceAll_head_match old [] new hne
  rw [List.append_nil] at h
  rw [h, replaceAll_nil, List.append_nil]

/-- C5: ReplacementMap keys are applied in descending length order; a document
text that consists of the longer of two keys, one a strict suffix of the other,
is rewritten with the longer key's mapping (and the shorter key never matches
first), provided no key occurs in the substituted local path. -/
theorem c5_key_length_precedence (infos : List AssetInfo) (k1 k2 v1 : Str)
    (h1 : k1 ∈ (build_replacements infos).1)
    (_h2 : k2 ∈ (build_replacements infos).1)
    (hsuf : k2 <:+ k1) (hne : k2 ≠ k1)
    (hv : lookupAssoc (build_replacements infos).2 k1 = some v1)
    (hclean : ∀ k ∈ (build_replacements infos).1, containsSub v1 k = false) :
    applyReplacements (build_replacements infos).1 (build_replacements infos).2 k1 = v1 := by
  have hnd := build_replacements_keys_nodup infos
  have hsorted := build_replacements_keys_sorted infos
  obtain ⟨pre, post, hsplit⟩ := List.append_of_mem h1
  rw [hsplit] at hnd hsorted hclean
  have hk1ne : k1 ≠ [] := by
    intro h0
    subst h0
    exact hne (List.suffix_nil.mp hsuf)
  unfold applyReplacements
  rw [hsplit, List.foldl_append]
  have hpre : List.foldl
      (fun acc k => replaceAll acc k ((lookupAssoc (build_replacements infos).2 k).getD []))
      k1 pre = k1 := by
    have hno : ∀ k ∈ pre, containsSub k1 k = false := by
      intro k hk
      cases hcq : containsSub k1 k with
      | false => rfl
      | true =>
        exfalso
        have hinf : k <:+: k1 := (containsSub_true_iff k1 k).mp hcq
        have hlen1 : k.length ≤ k1.length := hinf.length_le
        have hrel : lenDescBool k k1 = true :=
          (List.pairwise_append.mp hsorted).2.2 k hk k1 (by simp)
        have hlen2 : k1.length ≤ k.length := by
          simpa [lenDescBool, Nat.ble_eq] using hrel
        have heq : k = k1 := hinf.eq_of_length (by omega)
        have hdisj := (List.nodup_append.mp hnd).2.2
        exact hdisj hk (by simp [heq])
    exact applyReplacements_of_no_occurrence pre _ k1 hno
  rw [hpre, List.foldl_cons, hv]
  simp only [Option.getD_some]
  rw [replaceAll_self k1 v1 hk1ne]
  apply applyReplacements_of_no_occurrence post _ v1
  intro k hk
  exact hclean k (by simp [hk])

/-- The single asset used to witness C5: its full original-location URI and
its bare origin-relative path are both keys, one a strict suffix of the other. -/
def c5infos : List AssetInfo :=
  [⟨("text/css").data, ("assets/b.css").data, none,
    some (("https://data.seattle.gov/a/b").data)⟩]

unseal List.merge List.mergeSort in
/-- Witness for C5 at a concrete Resolver output. -/
theorem c5_witness :
    applyReplacements (build_replacements c5infos).1 (build_replacements c5infos).2
        (("https://data.seattle.gov/a/b").data) = ("assets/b.css").data :=
  c5_key_length_precedence c5infos (("https://data.seattle.gov/a/b").data)
    (("/a/b").data) (("assets/b.css").data)
    (by decide) (by decide) (by decide) (by decide) (by decide) (by decide)

/-- C6 amended: for an asset with a (non-empty) original-location and no
identifier, the bare path component is registered (mapping to the asset's
local path) exactly when the location's scheme is http or https, its authority
equals the configured origin's authority, and its path component is non-empty;
otherwise the only key registered is the literal location string itself. -/
theorem c6_path_key_amended (ct loc lp : Str) (hloc : loc ≠ []) :
    ((((urlparse loc).scheme = ("http").data ∨ (urlparse loc).scheme = ("https").data) ∧
        (urlparse loc).netloc = (urlparse ORIGIN).netloc ∧ (urlparse loc).path ≠ []) →
      lookupAssoc (registerInfo [] ⟨ct, lp, none, some loc⟩) (urlparse loc).path = some lp) ∧
    ((¬ (((urlparse loc).scheme = ("http").data ∨ (urlparse loc).scheme = ("https").data) ∧
        (urlparse loc).netloc = (urlparse ORIGIN).netloc ∧ (urlparse loc).path ≠ [])) →
      ∀ k ∈ (registerInfo [] ⟨ct, lp, none, some loc⟩).map Prod.fst, k = loc) := by
  have hreg : registerInfo [] ⟨ct, lp, none, some loc⟩ =
      if ((urlparse loc).scheme = ("http").data ∨ (urlparse loc).scheme = ("https").data) ∧
          (urlparse loc).netloc = (urlparse ORIGIN).netloc ∧ (urlparse loc).path ≠ [] then
        insertAssoc [(loc, lp)] (urlparse loc).path lp
      else [(loc, lp)] := by
    unfold registerInfo truthy
    simp [hloc, insertAssoc]
  have hlnil : lookupAssoc [] (urlparse loc).path = none := rfl
  constructor
  · intro hP
    rw [hreg, if_pos hP]
    unfold insertAssoc
    cases hbe : ([(loc, lp)].any (fun p => p.1 == (urlparse loc).path)) with
    | true =>
      have hle : loc = (urlparse loc).path := by
        simp only [List.any_cons, List.any_nil, Bool.or_false] at hbe
        exact eq_of_beq hbe
      simp only [hbe, if_true, List.map_cons, List.map_nil]
      rw [← hle]
      simp only [ite_self]
      show (if loc = loc then some lp else lookupAssoc [] loc) = some lp
      rw [if_pos rfl]
    | false =>
      simp only [hbe, Bool.false_eq_true, if_false]
      have hne2 : loc ≠ (urlparse loc).path := by
        intro he
        rw [List.any_cons, List.any_nil, Bool.or_false] at hbe
        rw [← he] at hbe
        simp at hbe
      show (if loc = (urlparse loc).path then some lp
        else lookupAssoc [((urlparse loc).path, lp)] (urlparse loc).path) = some lp
      rw [if_neg hne2]
      show (if (urlparse loc).path = (urlparse loc).path then some lp
        else lookupAssoc [] (urlparse loc).path) = some lp
      rw [if_pos rfl]
  · intro hP
    rw [hreg, if_neg hP]
    intro k hk
    simpa using hk

/-- A location whose authority matches the origin but whose scheme is `ftp`. -/
def c6info : AssetInfo :=
  ⟨("image/png").data, ("assets/img.png").data, none,
   some (("ftp://data.seattle.gov/img.png").data)⟩

unseal List.merge List.mergeSort in
/-- C6 counterexample: the authority component equals the configured origin's
authority, yet the bare path `/img.png` is not registered as a key, because the
code also requires the scheme to be http or https. -/
theorem c6_counterexample :
    (urlparse (("ftp://data.seattle.gov/img.png").data)).netloc = (urlparse ORIGIN).netloc ∧
    (urlparse (("ftp://data.seattle.gov/img.png").data)).path = ("/img.png").data ∧
    (("/img.png").data) ∉ (build_replacements [c6info]).1 ∧
    lookupAssoc (build_replacements [c6info]).2 (("/img.png").data) = none := by
  decide

/-- Witness for the amended C6 at an http-scheme location on the origin. -/
theorem c6_witness :
    lookupAssoc (registerInfo [] ⟨("image/png").data, ("assets/img.png").data, none,
        some (("https://data.seattle.gov/img.png").data)⟩)
      (urlparse (("https://data.seattle.gov/img.png").data)).path
      = some (("assets/img.png").data) :=
  (c6_path_key_amended (("image/png").data) (("https://data.seattle.gov/img.png").data)
    (("assets/img.png").data) (by decide)).1 (by decide)

/-- Regex word character, for the `\b` boundary assertion. -/
def isWordChar (c : Char) : Bool := c.isAlphanum || c = '_'

/-- Python `path.startswith("/")`. -/
def startsWithSlash (p : Str) : Bool :=
  match p with
  | c :: _ => c == '/'
  | [] => false

/-- Python `path.startswith("//")`. -/
def startsWithDoubleSlash (p : Str) : Bool :=
  match p with
  | c1 :: c2 :: _ => c1 == '/' && c2 == '/'
  | _ => false

/-- An optional quote character rendered back into text. -/
def optChar : Option Char → Str
  | some c => [c]
  | none => []

/-- Attempt to match `attr=(['"])\/(?!\/)([^'"]*)\2` for one fixed attribute
name at the head of `s`.  Returns the text `repl_attr` emits for the match and
the remainder of the string; the match's last character is always the closing
quote.  The character class `[^'"]*` cannot consume quotes, so the greedy run
is forced and no backtracking case is lost. -/
def matchAttrWith (origin : Str) (attr : Str) (s : Str) : Option (Str × Char × Str) :=
  if (attr ++ [('=')]).isPrefixOf s then
    match s.drop (attr.length + 1) with
    | q :: s2 =>
      if q = '\'' ∨ q = '"' then
        match s2 with
        | c2 :: s3 =>
          if c2 = '/' then
            if (match s3 with | c3 :: _ => c3 == '/' | [] => false) then none
            else
              let body := s3.takeWhile (fun c => c != '\'' && c != '"')
              match s3.dropWhile (fun c => c != '\'' && c != '"') with
              | cq :: rest4 =>
                if cq = q then
                  let emitted :=
                    if startsWithSlash body ∧ ¬ startsWithDoubleSlash body then
                      attr ++ (('=') :: [q]) ++ origin ++ body ++ [q]
                    else attr ++ (('=') :: [q]) ++ (('/') :: body) ++ [q]
                  some (emitted, q, rest4)
                else none
              | [] => none
          else none
        | [] => none
      else none
    | [] => none
  else none

/-- One attempt of the attribute regex at the current position: the `\b`
boundary against the previous character, then the alternation
`href|src|action` in order. -/
def matchAttrAt (origin : Str) (prev : Option Char) (s : Str) : Option (Str × Char × Str) :=
  if (match prev with | some c => isWordChar c | none => false) then none
  else
    match matchAttrWith origin (("href").data) s with
    | some r => some r
    | none =>
      match matchAttrWith origin (("src").data) s with
      | some r => some r
      | none => matchAttrWith origin (("action").data) s

/-- The `re.sub` scan for the attribute regex, tracking the character before
the current position for the `\b` assertion. -/
def reSubAttrF (origin : Str) : Nat → Option Char → Str → Str
  | 0, _, s => s
  | _ + 1, _, [] => []
  | f + 1, prev, c :: rest =>
    match matchAttrAt origin prev (c :: rest) with
    | some (emitted, lastc, rest2) => emitted ++ reSubAttrF origin f (some lastc) rest2
    | none => c :: reSubAttrF origin f (some c) rest

/-- The attribute-rewriting substitution of `rewrite_root_relative_urls_in_html`. -/
def reSubAttr (origin s : Str) : Str := reSubAttrF origin s.length none s

/-- The emission of `repl_css` for a `url(...)` match: promote a root-relative
path (single leading separator) to the origin, else emit the match unchanged. -/
def emitCssUrl (origin : Str) (openq : Option Char) (path : Str) (closeq : Option Char) : Str :=
  if startsWithSlash path ∧ ¬ startsWithDoubleSlash path then
    ("url(").data ++ optChar openq ++ origin ++ path ++ optChar closeq ++ [(')')]
  else ("url(").data ++ optChar openq ++ path ++ optChar closeq ++ [(')')]

/-- Attempt to match `url\((['"]?)(\/[^'")]+)(['"]?)\)` at the head of `s`.
The run `[^'")]+` cannot consume quotes or the closing parenthesis, so the
greedy parse below is the only viable one and backtracking adds no matches. -/
def matchCssUrlAt (origin : Str) (s : Str) : Option (Str × Str) :=
  if (("url(").data).isPrefixOf s then
    let s1 := s.drop 4
    let openq : Option Char :=
      match s1 with
      | c :: _ => if c = '\'' ∨ c = '"' then some c else none
      | [] => none
    let s2 := match openq with
      | some _ => s1.drop 1
      | none => s1
    match s2 with
    | c2 :: s3 =>
      if c2 = '/' then
        let run := s3.takeWhile (fun c => c != '\'' && c != '"' && c != ')')
        if run.isEmpty then none
        else
          match s3.dropWhile (fun c => c != '\'' && c != '"' && c != ')') with
          | c4 :: rest4 =>
            if c4 = ')' then
              some (emitCssUrl origin openq (('/') :: run) none, rest4)
            else if c4 = '\'' ∨ c4 = '"' then
              match rest4 with
              | c5 :: rest5 =>
                if c5 = ')' then some (emitCssUrl origin openq (('/') :: run) (some c4), rest5)
                else none
              | [] => none
            else none
          | [] => none
      else none
    | [] => none
  else none

/-- The `re.sub` scan for the `url(...)` regex. -/
def reSubCssUrlF (origin : Str) : Nat → Str → Str
  | 0, s => s
  | _ + 1, [] => []
  | f + 1, c :: rest =>
    match matchCssUrlAt origin (c :: rest) with
    | some (emitted, rest2) => emitted ++ reSubCssUrlF origin f rest2
    | none => c :: reSubCssUrlF origin f rest

/-- The `url(...)` root-relative-promotion substitution. -/
def reSubCssUrl (origin s : Str) : Str := reSubCssUrlF origin s.length s

/-- Attempt to match `url\((&quot;)(\/[^&]+)(&quot;)\)` at the head of `s`.
The replacement in the source promotes the path unconditionally. -/
def matchCssEntityAt (origin : Str) (s : Str) : Option (Str × Str) :=
  if (("url(&quot;").data).isPrefixOf s then
    match s.drop 10 with
    | c :: s2 =>
      if c = '/' then
        let run := s2.takeWhile (fun d => d != '&')
        if run.isEmpty then none
        else
          let rest := s2.dropWhile (fun d => d != '&')
          if (("&quot;)").data).isPrefixOf rest then
            some ((("url(&quot;").data) ++ origin ++ (('/') :: run) ++ (("&quot;)").data),
              rest.drop 7)
          else none
      else none
    | [] => none
  else none

/-- The `re.sub` scan for the entity-quoted `url(...)` regex. -/
def reSubCssEntityF (origin : Str) : Nat → Str → Str
  | 0, s => s
  | _ + 1, [] => []
  | f + 1, c :: rest =>
    match matchCssEntityAt origin (c :: rest) with
    | some (emitted, rest2) => emitted ++ reSubCssEntityF origin f rest2
    | none => c :: reSubCssEntityF origin f rest

/-- The entity-quoted `url(...)` substitution. -/
def reSubCssEntity (origin s : Str) : Str := reSubCssEntityF origin s.length s

/-- `rewrite_root_relative_urls_in_html`: the three substitutions in source
order — attributes, literal-or-plain-quoted `url(...)`, entity-quoted `url(...)`. -/
def rewrite_root_relative_urls_in_html (html : Str) (origin : Str) : Str :=
  reSubCssEntity origin (reSubCssUrl origin (reSubAttr origin html))

/-- The key-substitution loop of `rewrite_urls_in_css` (with its `if k in
css_text` containment check). -/
def cssSubstituteKeys (keys : List Str) (repl_map : List (Str × Str)) (t : Str) : Str :=
  keys.foldl
    (fun acc k => if containsSub acc k then replaceAll acc k ((lookupAssoc repl_map k).getD [])
      else acc) t

/-- `rewrite_urls_in_css`: literal key substitution first, then promotion of
remaining root-relative `url(...)` references. -/
def rewrite_urls_in_css (css_text : Str) (keys : List Str) (repl_map : List (Str × Str))
    (origin : Str) : Str :=
  reSubCssUrl origin (cssSubstituteKeys keys repl_map css_text)

theorem matchAttrWith_emit (origin attr s em : Str) (lc : Char) (rest : Str)
    (h : matchAttrWith origin attr s = some (em, lc, rest)) : em ++ rest = s := by
  unfold matchAttrWith at h
  split at h
  case isFalse => exact absurd h (by simp)
  case isTrue hpre =>
    obtain ⟨t, ht⟩ := List.isPrefixOf_iff_prefix.mp hpre
    have hdrop : s.drop (attr.length + 1) = t := by
      rw [← ht, show attr.length + 1 = (attr ++ [('=')]).length by simp, List.drop_left]
    rw [hdrop] at h
    match t, ht with
    | [], ht => exact absurd h (by simp)
    | q :: s2, ht =>
      simp only [] at h
      split at h
      case isFalse => exact absurd h (by simp)
      case isTrue hq =>
        match s2, ht with
        | [], ht => exact absurd h (by simp)
        | c2 :: s3, ht =>
          simp only [] at h
          split at h
          case isFalse => exact absurd h (by simp)
          case isTrue hc2 =>
            split at h
            case isTrue => exact absurd h (by simp)
            case isFalse hlook =>
              have hsplit3 : s3.takeWhile (fun c => c != '\'' && c != '"')
                  ++ s3.dropWhile (fun c => c != '\'' && c != '"') = s3 :=
                List.takeWhile_append_dropWhile _ s3
              generalize hbody : s3.takeWhile (fun c => c != '\'' && c != '"') = body at h
              generalize hrest3 : s3.dropWhile (fun c => c != '\'' && c != '"') = rest3 at h
              match rest3, hrest3 with
              | [], hrest3 => exact absurd h (by simp)
              | cq :: rest4, hrest3 =>
                simp only [] at h
                split at h
                case isFalse => exact absurd h (by simp)
                case isTrue hcq =>
                  rw [if_neg ?nosl] at h
                  case nosl =>
                    intro hsl
                    have hb : startsWithSlash body = true := hsl.1
                    cases hb2 : body with
                    | nil =>
                      rw [hb2] at hb
                      simp [startsWithSlash] at hb
                    | cons b0 bs =>
                      rw [hb2] at hb hbody
                      have hb0 : b0 = '/' := by
                        simpa [startsWithSlash] using hb
                      cases hs3c : s3 with
                      | nil =>
                        rw [hs3c] at hbody
                        simp at hbody
                      | cons x xs =>
                        rw [hs3c, List.takeWhile_cons] at hbody
                        by_cases hx : (x != '\'' && x != '"') = true
                        · rw [if_pos hx] at hbody
                          have hxb : x = b0 := (List.cons_eq_cons.mp hbody).1
                          rw [hs3c] at hlook
                          apply hlook
                          simp [hxb, hb0]
                        · rw [if_neg hx] at hbody
                          simp at hbody
                  simp only [Option.some_inj, Prod.mk.injEq] at h
                  obtain ⟨hem, hlc, hrest⟩ := h
                  have hs3 : body ++ (q :: rest) = s3 := by
                    rw [← hsplit3, hbody, hrest3, ← hrest, hcq]
                  rw [← hem, ← ht, ← hs3, hc2]
                  simp

theorem matchAttrAt_emit (origin : Str) (prev : Option Char) (s em : Str) (lc : Char)
    (rest : Str) (h : matchAttrAt origin prev s = some (em, lc, rest)) : em ++ rest = s := by
  unfold matchAttrAt at h
  split at h
  case isTrue => exact absurd h (by simp)
  case isFalse =>
    cases h1 : matchAttrWith origin (("href").data) s with
    | some r =>
      rw [h1] at h
      simp only [Option.some_inj] at h
      subst h
      exact matchAttrWith_emit origin _ s _ _ _ h1
    | none =>
      rw [h1] at h
      cases h2 : matchAttrWith origin (("src").data) s with
      | some r =>
        rw [h2] at h
        simp only [Option.some_inj] at h
        subst h
        exact matchAttrWith_emit origin _ s _ _ _ h2
      | none =>
        rw [h2] at h
        exact matchAttrWith_emit origin _ s _ _ _ h

/-- The attribute-rewriting pass emits every match verbatim, so the whole
substitution is the identity, at every fuel and previous-character state. -/
theorem reSubAttrF_id (origin : Str) : ∀ f prev s, reSubAttrF origin f prev s = s := by
  intro f
  induction f with
  | zero => intro prev s; rfl
  | succ f ih =>
    intro prev s
    match s with
    | [] => rfl
    | c :: rest =>
      simp only [reSubAttrF]
      cases hm : matchAttrAt origin prev (c :: rest) with
      | some r =>
        match r, hm with
        | (em, lastc, rest2), hm =>
          simp only []
          rw [ih (some lastc) rest2]
          exact matchAttrAt_emit origin prev (c :: rest) em lastc rest2 hm
      | none =>
        simp only []
        rw [ih (some c) rest]

theorem reSubAttr_id (origin s : Str) : reSubAttr origin s = s :=
  reSubAttrF_id origin s.length none s

/-- C2 (code bug): the markup-promotion pass never rewrites a root-relative
attribute value.  The regex captures the path without its leading separator,
while the replacement callback demands the captured group start with the
separator, so every match is emitted unchanged: the pass is the identity on
every document (first conjunct), and on the failing input
`<a href="/foo/bar">x</a>` the full rewriting function leaves the text intact
instead of producing `href="{origin}/foo/bar"` (second and third conjuncts). -/
theorem c2_attr_rewrite_noop :
    (∀ origin s : Str, reSubAttr origin s = s) ∧
    rewrite_root_relative_urls_in_html (("<a href=\"/foo/bar\">x</a>").data) ORIGIN
      = (("<a href=\"/foo/bar\">x</a>").data) ∧
    containsSub
      (rewrite_root_relative_urls_in_html (("<a href=\"/foo/bar\">x</a>").data) ORIGIN)
      (("https://data.seattle.gov/foo/bar").data) = false :=
  ⟨reSubAttr_id, by decide, by decide⟩

theorem reSubCssUrlF_id_of_no_match (origin : Str) :
    ∀ f s, (∀ t : Str, t <:+ s → matchCssUrlAt origin t = none) →
      reSubCssUrlF origin f s = s := by
  intro f
  induction f with
  | zero => intro s h; rfl
  | succ f ih =>
    intro s h
    match s with
    | [] => rfl
    | c :: rest =>
      simp only [reSubCssUrlF]
      rw [h (c :: rest) (List.suffix_refl _)]
      rw [ih rest (fun t ht => h t (ht.trans (List.suffix_cons c rest)))]

theorem matchCssUrlAt_none_of_not_prefix (origin t : Str)
    (h : ¬ (("url(").data).isPrefixOf t) : matchCssUrlAt origin t = none := by
  unfold matchCssUrlAt
  rw [if_neg h]

theorem url_prefix_only_at_start (lp : Str) (hpar : ('(') ∉ lp)
    (u t : Str) (hsplit : u ++ t = ("url(").data ++ lp ++ [(')')])
    (hpre : (("url(").data).isPrefixOf t) : u = [] := by
  obtain ⟨t2, ht2⟩ := List.isPrefixOf_iff_prefix.mp hpre
  rw [← ht2] at hsplit
  have hud : ("url(").data = ('u') :: ('r') :: ('l') :: ('(') :: [] := rfl
  rw [hud] at hsplit
  match u with
  | [] => rfl
  | [a] =>
    exfalso
    simp only [List.cons_append, List.nil_append, List.append_assoc, List.cons.injEq] at hsplit
    exact absurd hsplit.2.1 (by decide)
  | [a, b] =>
    exfalso
    simp only [List.cons_append, List.nil_append, List.append_assoc, List.cons.injEq] at hsplit
    exact absurd hsplit.2.2.1 (by decide)
  | [a, b, c] =>
    exfalso
    simp only [List.cons_append, List.nil_append, List.append_assoc, List.cons.injEq] at hsplit
    exact absurd hsplit.2.2.2.1 (by decide)
  | a :: b :: c :: d :: u2 =>
    exfalso
    simp only [List.cons_append, List.nil_append, List.append_assoc, List.cons.injEq] at hsplit
    have htail := hsplit.2.2.2.2
    have hmem : ('(') ∈ u2 ++ (('u') :: ('r') :: ('l') :: ('(') :: t2) := by
      apply List.mem_append_right
      simp
    rw [htail] at hmem
    rcases List.mem_append.mp hmem with hmem1 | hmem2
    · exact hpar hmem1
    · simp at hmem2

theorem matchCssUrlAt_whole_none (origin lp : Str)
    (hhead : ∀ c, lp.head? = some c → c ≠ '\'' ∧ c ≠ '"' ∧ c ≠ '/') :
    matchCssUrlAt origin (("url(").data ++ lp ++ [(')')]) = none := by
  have hpre : (("url(").data).isPrefixOf (("url(").data ++ lp ++ [(')')]) := by
    apply List.isPrefixOf_iff_prefix.mpr
    rw [List.append_assoc]
    exact List.prefix_append _ _
  have hdrop : (("url(").data ++ lp ++ [(')')]).drop 4 = lp ++ [(')')] := by
    rw [List.append_assoc, show (4 : Nat) = (("url(").data).length from rfl, List.drop_left]
  unfold matchCssUrlAt
  rw [if_pos hpre, hdrop]
  cases lp with
  | nil => rfl
  | cons l0 ls =>
    obtain ⟨h1, h2, h3⟩ := hhead l0 rfl
    have hq : ¬ (l0 = '\'' ∨ l0 = '"') := by tauto
    simp only [List.cons_append, if_neg hq, if_neg h3]

theorem matchCssUrlAt_none_in_wrapped (origin lp : Str) (hpar : ('(') ∉ lp)
    (hhead : ∀ c, lp.head? = some c → c ≠ '\'' ∧ c ≠ '"' ∧ c ≠ '/') :
    ∀ t : Str, t <:+ (("url(").data ++ lp ++ [(')')]) → matchCssUrlAt origin t = none := by
  intro t hsuf
  by_cases hpre : (("url(").data).isPrefixOf t
  · obtain ⟨u, hu⟩ := hsuf
    have hu0 : u = [] := url_prefix_only_at_start lp hpar u t hu hpre
    rw [hu0, List.nil_append] at hu
    rw [hu]
    exact matchCssUrlAt_whole_none origin lp hhead
  · exact matchCssUrlAt_none_of_not_prefix origin t hpre

theorem reSubCssUrl_id_wrapped (origin lp : Str) (hpar : ('(') ∉ lp)
    (hhead : ∀ c, lp.head? = some c → c ≠ '\'' ∧ c ≠ '"' ∧ c ≠ '/') :
    reSubCssUrl origin (("url(").data ++ lp ++ [(')')]) = ("url(").data ++ lp ++ [(')')] :=
  reSubCssUrlF_id_of_no_match origin _ _ (matchCssUrlAt_none_in_wrapped origin lp hpar hhead)

theorem replaceAll_url_wrapped (k v : Str) (hk : k.head? = some ('/')) :
    replaceAll (("url(").data ++ k ++ [(')')]) k v = ("url(").data ++ v ++ [(')')] := by
  have hkne : k ≠ [] := by
    intro h
    rw [h] at hk
    simp at hk
  have hud : ("url(").data = ('u') :: ('r') :: ('l') :: ('(') :: [] := rfl
  rw [hud]
  simp only [List.cons_append, List.nil_append, List.append_assoc]
  rw [replaceAll_cons_neg _ _ _ _ (not_isPrefixOf_of_head_ne k '/' 'u' _ hk (by decide))]
  rw [replaceAll_cons_neg _ _ _ _ (not_isPrefixOf_of_head_ne k '/' 'r' _ hk (by decide))]
  rw [replaceAll_cons_neg _ _ _ _ (not_isPrefixOf_of_head_ne k '/' 'l' _ hk (by decide))]
  rw [replaceAll_cons_neg _ _ _ _ (not_isPrefixOf_of_head_ne k '/' '(' _ hk (by decide))]
  rw [replaceAll_head_match k [(')')] v hkne]
  rw [replaceAll_cons_neg _ _ _ _ (not_isPrefixOf_of_head_ne k '/' ')' _ hk (by decide))]
  rw [replaceAll_nil]

theorem cssSubstituteKeys_of_no_occurrence (keys : List Str) (repl : List (Str × Str)) (t : Str)
    (h : ∀ k ∈ keys, containsSub t k = false) :
    cssSubstituteKeys keys repl t = t := by
  induction keys with
  | nil => rfl
  | cons k0 ks ih =>
    unfold cssSubstituteKeys
    simp only [List.foldl_cons]
    rw [h k0 (by simp)]
    simp only [Bool.false_eq_true, if_false]
    exact ih (fun k hk => h k (by simp [hk]))

theorem cssSubstituteKeys_wrapped (keys : List Str) (repl : List (Str × Str)) (k lp : Str)
    (hmem : k ∈ keys) (hnd : keys.Nodup)
    (hv : lookupAssoc repl k = some lp)
    (hk : k.head? = some ('/'))
    (hothers : ∀ k' ∈ keys, k' ≠ k →
      containsSub (("url(").data ++ k ++ [(')')]) k' = false ∧
      containsSub (("url(").data ++ lp ++ [(')')]) k' = false) :
    cssSubstituteKeys keys repl (("url(").data ++ k ++ [(')')])
      = ("url(").data ++ lp ++ [(')')] := by
  obtain ⟨pre, post, hsplit⟩ := List.append_of_mem hmem
  rw [hsplit] at hnd hothers ⊢
  have hdisj := (List.nodup_append.mp hnd).2.2
  have hkpost : k ∉ post := by
    have := (List.nodup_append.mp hnd).2.1
    rw [List.nodup_cons] at this
    exact this.1
  unfold cssSubstituteKeys
  rw [List.foldl_append]
  have hpre : List.foldl
      (fun acc k => if containsSub acc k then replaceAll acc k ((lookupAssoc repl k).getD [])
        else acc)
      (("url(").data ++ k ++ [(')')]) pre = ("url(").data ++ k ++ [(')')] := by
    exact cssSubstituteKeys_of_no_occurrence pre repl _ (fun k' hk' =>
      (hothers k' (by simp [hk'])
        (fun he => hdisj hk' (by simp [he]))).1)
  rw [hpre, List.foldl_cons]
  have hcont : containsSub (("url(").data ++ k ++ [(')')]) k = true :=
    (containsSub_true_iff _ _).mpr (List.infix_append _ _ _)
  rw [hcont]
  simp only [if_true, hv, Option.getD_some]
  rw [replaceAll_url_wrapped k lp hk]
  exact cssSubstituteKeys_of_no_occurrence post repl _ (fun k' hk' =>
    (hothers k' (by simp [hk'])
      (fun he => hkpost (he ▸ hk'))).2)

/-- C7 amended: a stylesheet consisting of a `url(/path)` reference whose path
is a ReplacementMap key is rewritten by `rewrite_urls_in_css` to `url(local)`
with the key's local path, and the reference is not promoted to an absolute
origin URL — provided no other key overlaps the reference text or its
substituted form (the counterexample shows such an overlap can clobber the
reference), and the local path does not itself look root-relative or quoted. -/
theorem c7_resolved_not_promoted (keys : List Str) (repl : List (Str × Str))
    (k lp origin : Str)
    (hmem : k ∈ keys) (hnd : keys.Nodup)
    (hv : lookupAssoc repl k = some lp)
    (hk : k.head? = some ('/'))
    (hothers : ∀ k' ∈ keys, k' ≠ k →
      containsSub (("url(").data ++ k ++ [(')')]) k' = false ∧
      containsSub (("url(").data ++ lp ++ [(')')]) k' = false)
    (hpar : ('(') ∉ lp)
    (hhead : ∀ c, lp.head? = some c → c ≠ '\'' ∧ c ≠ '"' ∧ c ≠ '/') :
    rewrite_urls_in_css (("url(").data ++ k ++ [(')')]) keys repl origin
      = ("url(").data ++ lp ++ [(')')] := by
  unfold rewrite_urls_in_css
  rw [cssSubstituteKeys_wrapped keys repl k lp hmem hnd hv hk hothers]
  exact reSubCssUrl_id_wrapped origin lp hpar hhead

/-- Two assets whose Resolver keys overlap inside a `url(/a)` reference: the
Content-Location `l(/a` of the second asset occurs across the `url(` opener
and the origin-relative path `/a` of the first. -/
def c7infos : List AssetInfo :=
  [⟨("image/png").data, ("assets/img.png").data, none,
    some (("https://data.seattle.gov/a").data)⟩,
   ⟨("font/woff").data, ("assets/a").data, none, some (("l(/a").data)⟩]

unseal List.merge List.mergeSort in
/-- C7 counterexample: `/a` is a ReplacementMap key mapped to
`assets/img.png` and the stylesheet text is exactly `url(/a)`, yet the
rewriter emits `urassetsassets/img.png)` rather than replacing the reference
with `url(assets/img.png)`: a longer overlapping key is substituted first and
destroys the reference. -/
theorem c7_counterexample :
    (("/a").data) ∈ (build_replacements c7infos).1 ∧
    lookupAssoc (build_replacements c7infos).2 (("/a").data)
      = some (("assets/img.png").data) ∧
    rewrite_urls_in_css (("url(/a)").data) (build_replacements c7infos).1
        (build_replacements c7infos).2 ORIGIN = ("urassetsassets/img.png)").data ∧
    rewrite_urls_in_css (("url(/a)").data) (build_replacements c7infos).1
        (build_replacements c7infos).2 ORIGIN ≠ ("url(assets/img.png)").data := by
  refine ⟨by decide, by decide, by decide, by decide⟩

/-- The spec's end-to-end stylesheet asset: `/assets/bg.png` registered for an
image materialized at `assets/bg.png`. -/
def c7winfos : List AssetInfo :=
  [⟨("image/png").data, ("assets/bg.png").data, none,
    some (("https://data.seattle.gov/assets/bg.png").data)⟩]

unseal List.merge List.mergeSort in
/-- Witness for the amended C7: `url(/assets/bg.png)` is rewritten to the local
path and not promoted. -/
theorem c7_witness :
    rewrite_urls_in_css (("url(").data ++ (("/assets/bg.png").data) ++ [(')')])
        (build_replacements c7winfos).1 (build_replacements c7winfos).2 ORIGIN
      = ("url(").data ++ (("assets/bg.png").data) ++ [(')')] :=
  c7_resolved_not_promoted (build_replacements c7winfos).1 (build_replacements c7winfos).2
    (("/assets/bg.png").data) (("assets/bg.png").data) ORIGIN
    (by decide) (by decide) (by decide) (by decide)
    (by decide) (by decide) (by decide)

/-- The resource directory as an abstract file system: files keyed by file
name (the key under which `convert` writes them), mapping to byte contents. -/
abbrev FS := List (Str × List Nat)

/-- Read a file; `none` models an I/O failure (`read_bytes` raising). -/
def readFS (fs : FS) (p : Str) : Option (List Nat) :=
  match fs with
  | [] => none
  | (q, bs) :: rest => if q = p then some bs else readFS rest p

/-- Write (or overwrite) a file. -/
def writeFS (fs : FS) (p : Str) (bs : List Nat) : FS :=
  match fs with
  | [] => [(p, bs)]
  | (q, obs) :: rest => if q = p then (p, bs) :: rest else (q, obs) :: writeFS rest p bs

/-- The body of the per-stylesheet try-block in `convert`: read the file,
decode it as UTF-8 falling back to Latin-1 with replacement, rewrite its
references, and write it back re-encoded as UTF-8.  `Except.error` models the
raised exception on an I/O failure. -/
def processCssFile (env : PyEnv) (keys : List Str) (repl : List (Str × Str)) (origin : Str)
    (fs : FS) (p : Str) : Except Unit FS :=
  match readFS fs p with
  | none => Except.error ()
  | some raw =>
    let css_text :=
      match env.decodeUtf8Strict raw with
      | some t => t
      | none => env.decodeLatin1Replace raw
    Except.ok (writeFS fs p (env.encodeUtf8 (rewrite_urls_in_css css_text keys repl origin)))

/-- The stylesheet post-processing loop of `convert`: each file is processed in
a try/except that ignores any failure and moves on. -/
def cssPostProcess (env : PyEnv) (keys : List Str) (repl : List (Str × Str)) (origin : Str)
    (fs : FS) (paths : List Str) : FS :=
  paths.foldl
    (fun acc p =>
      match processCssFile env keys repl origin acc p with
      | Except.ok fs2 => fs2
      | Except.error _ => acc) fs

/-- The state threaded through `convert`'s scan over the parts: the primary
document text once found, the asset records, the used-file-name set, the files
written to the resource directory, and the file names of stylesheet assets. -/
structure ScanState where
  htmlText : Option Str
  assets : List AssetInfo
  used : Finset Str
  written : FS
  cssFiles : List Str

def initScan : ScanState := ⟨none, [], ∅, [], []⟩

/-- Decoding of the primary document payload: declared charset (or UTF-8 when
absent), with a UTF-8 fallback on a `LookupError` for an unknown codec. -/
def decodeHtmlPayload (env : PyEnv) (p : PyPart) : Str :=
  let payload := p.payload.getD []
  let cs :=
    match truthy p.charset with
    | some c => c
    | none => ("utf-8").data
  match env.decode payload cs with
  | some t => t
  | none => env.decodeUtf8Replace payload

/-- `(part.get('Content-ID') or '').strip('<>') or None`. -/
def cleanCid (p : PyPart) : Option Str :=
  truthy (some (stripChars ['<', '>'] ((p.contentID).getD [])))

/-- One iteration of `convert`'s part loop.  The file is written under its
chosen file name; the recorded local path prepends the resource directory's
path relative to the output document's directory. -/
def scanStep (env : PyEnv) (relAssets : Str) (s : ScanState) (p : PyPart) : ScanState :=
  if p.contentType = ("text/html").data ∧ s.htmlText = none then
    { s with htmlText := some (decodeHtmlPayload env p) }
  else if p.isMultipart then s
  else if p.contentType = [] ∨ p.contentType = ("text/plain").data then s
  else
    match p.payload with
    | none => s
    | some bs =>
      let pf := pick_filename env p s.used
      let info : AssetInfo :=
        ⟨p.contentType, relAssets ++ (('/') :: pf.1), cleanCid p, truthy p.contentLocation⟩
      { htmlText := s.htmlText
        assets := s.assets ++ [info]
        used := pf.2
        written := s.written ++ [(pf.1, bs)]
        cssFiles :=
          if p.contentType = ("text/css").data then s.cssFiles ++ [pf.1] else s.cssFiles }

/-- The part loop of `convert`. -/
def scanParts (env : PyEnv) (relAssets : Str) (parts : List PyPart) : ScanState :=
  parts.foldl (scanStep env relAssets) initScan

/-- The observable outcome of one `convert` run: resource files written during
the scan, asset records, ReplacementMap keys, the output document (if any),
the fatal `SystemExit` message (if any), and the resource files after the
stylesheet post-processing. -/
structure ConvertTrace where
  written : FS
  assets : List AssetInfo
  keys : List Str
  htmlOut : Option Str
  fatal : Option Str
  finalFS : FS

/-- `convert`: scan the parts (writing asset files as it goes), abort with
`SystemExit` when no text/html part was found, otherwise build the
ReplacementMap, rewrite the document (Pass 1 then promotion passes), and
post-process the stylesheet files. -/
def convertModel (env : PyEnv) (relAssets : Str) (parts : List PyPart) : ConvertTrace :=
  let st := scanParts env relAssets parts
  match st.htmlText with
  | none =>
    ⟨st.written, st.assets, [], none,
      some (("No text/html part found in MHTML file").data), st.written⟩
  | some html =>
    let kr := build_replacements st.assets
    let promoted := rewrite_root_relative_urls_in_html (applyReplacements kr.1 kr.2 html) ORIGIN
    ⟨st.written, st.assets, kr.1, some promoted, none,
      cssPostProcess env kr.1 kr.2 ORIGIN st.written st.cssFiles⟩

/-- A concrete standard-library environment used by witnesses: a byte-per
character codec and an extension guess for `text/html`, matching `mimetypes`. -/
def defaultEnv : PyEnv :=
  ⟨fun m => if m = ("text/html").data then some ((".html").data) else none,
   fun bs _ => some (bs.map (fun b => Char.ofNat b)),
   fun bs => bs.map (fun b => Char.ofNat b),
   fun bs => some (bs.map (fun b => Char.ofNat b)),
   fun bs => bs.map (fun b => Char.ofNat b),
   fun s => s.map (fun c => c.toNat)⟩

/-- C9: a failure while rewriting one stylesheet file is caught by the
per-file try/except: the file system is left exactly as it was for that file
(nothing at all is changed by the failed iteration), the loop carries on with
the remaining stylesheets as if the failed one had not been listed, and no
error escapes to the run level (the loop is a total function into `FS`). -/
theorem c9_css_failure_skipped (env : PyEnv) (keys : List Str) (repl : List (Str × Str))
    (origin : Str) (fs : FS) (p : Str) (rest : List Str)
    (h : processCssFile env keys repl origin fs p = Except.error ()) :
    cssPostProcess env keys repl origin fs (p :: rest)
      = cssPostProcess env keys repl origin fs rest := by
  unfold cssPostProcess
  simp only [List.foldl_cons, h]

/-- Witness for C9: the first listed stylesheet is missing (its read fails),
the second is present and still gets processed. -/
theorem c9_witness :
    cssPostProcess defaultEnv [] [] ORIGIN [((("b.css").data), [120])]
        [(("a.css").data), (("b.css").data)]
      = cssPostProcess defaultEnv [] [] ORIGIN [((("b.css").data), [120])] [(("b.css").data)] :=
  c9_css_failure_skipped defaultEnv [] [] ORIGIN [((("b.css").data), [120])]
    (("a.css").data) [(("b.css").data)] rfl

theorem scanStep_htmlText_of_ne (env : PyEnv) (relA : Str) (s : ScanState) (p : PyPart)
    (h : ¬ (p.contentType = ("text/html").data ∧ s.htmlText = none)) :
    (scanStep env relA s p).htmlText = s.htmlText := by
  unfold scanStep
  rw [if_neg h]
  split
  · rfl
  split
  · rfl
  split
  · rfl
  · rfl

theorem scanStep_htmlText_isSome (env : PyEnv) (relA : Str) (s : ScanState) (p : PyPart)
    (h : s.htmlText.isSome) : ((scanStep env relA s p).htmlText).isSome := by
  have hne : s.htmlText ≠ none := by
    intro h0
    rw [h0] at h
    simp at h
  rw [scanStep_htmlText_of_ne env relA s p (fun hc => hne hc.2)]
  exact h

theorem scanFold_htmlText_isSome (env : PyEnv) (relA : Str) :
    ∀ (ps : List PyPart) (s : ScanState), s.htmlText.isSome →
      ((ps.foldl (scanStep env relA) s).htmlText).isSome := by
  intro ps
  induction ps with
  | nil => intro s h; exact h
  | cons q qs ih =>
    intro s h
    exact ih _ (scanStep_htmlText_isSome env relA s q h)

theorem scanFold_htmlText_none (env : PyEnv) (relA : Str) :
    ∀ (ps : List PyPart) (s : ScanState),
      (∀ p ∈ ps, p.contentType ≠ ("text/html").data) → s.htmlText = none →
      ((ps.foldl (scanStep env relA) s).htmlText) = none := by
  intro ps
  induction ps with
  | nil => intro s _ h0; exact h0
  | cons q qs ih =>
    intro s h h0
    simp only [List.foldl_cons]
    apply ih _ (fun p hp => h p (by simp [hp]))
    rw [scanStep_htmlText_of_ne env relA s q (fun hc => h q (by simp) hc.1)]
    exact h0

/-- C1 amended: an archive with no text/html part aborts with the fatal
`SystemExit` message and writes no output document; (asset files encountered
before the abort, however, have already been written — see the
counterexample). -/
theorem c1_fatal_abort_amended (env : PyEnv) (relAssets : Str) (parts : List PyPart)
    (h : ∀ p ∈ parts, p.contentType ≠ ("text/html").data) :
    (convertModel env relAssets parts).fatal
        = some (("No text/html part found in MHTML file").data) ∧
      (convertModel env relAssets parts).htmlOut = none := by
  have hnone : (scanParts env relAssets parts).htmlText = none :=
    scanFold_htmlText_none env relAssets parts initScan h rfl
  unfold convertModel
  simp only [hnone]
  exact ⟨trivial, trivial⟩

/-- A single PNG part with no location and no identifier. -/
def pngPart : PyPart := ⟨("image/png").data, none, none, false, some [1, 2, 3], none⟩

/-- C1 counterexample: an archive with no text/html part aborts fatally and
writes no document, but the PNG asset file has already been written into the
resource directory before the abort. -/
theorem c1_counterexample :
    (convertModel defaultEnv (("assets").data) [pngPart]).fatal.isSome ∧
    (convertModel defaultEnv (("assets").data) [pngPart]).htmlOut = none ∧
    (convertModel defaultEnv (("assets").data) [pngPart]).written
      = [((("asset.png").data), [1, 2, 3])] := by
  refine ⟨by decide, by decide, by decide⟩

/-- Witness for the amended C1. -/
theorem c1_witness :
    (convertModel defaultEnv (("assets").data) [pngPart]).fatal
        = some (("No text/html part found in MHTML file").data) ∧
      (convertModel defaultEnv (("assets").data) [pngPart]).htmlOut = none :=
  c1_fatal_abort_amended defaultEnv (("assets").data) [pngPart] (by decide)

theorem convertModel_written (env : PyEnv) (relA : Str) (parts : List PyPart) :
    (convertModel env relA parts).written = (scanParts env relA parts).written := by
  unfold convertModel
  cases h : (scanParts env relA parts).htmlText <;> simp only [h]

theorem convertModel_assets (env : PyEnv) (relA : Str) (parts : List PyPart) :
    (convertModel env relA parts).assets = (scanParts env relA parts).assets := by
  unfold convertModel
  cases h : (scanParts env relA parts).htmlText <;> simp only [h]

theorem scanStep_materializes (env : PyEnv) (relA : Str) (s : ScanState) (p : PyPart)
    (bs : List Nat)
    (hhtml : s.htmlText ≠ none)
    (hct : p.contentType = ("text/html").data)
    (hmp : p.isMultipart = false)
    (hpl : p.payload = some bs) :
    (scanStep env relA s p).written = s.written ++ [((pick_filename env p s.used).1, bs)] ∧
    (scanStep env relA s p).assets = s.assets ++
      [⟨p.contentType, relA ++ (('/') :: (pick_filename env p s.used).1), cleanCid p,
        truthy p.contentLocation⟩] := by
  unfold scanStep
  rw [if_neg (fun hc => hhtml hc.2)]
  rw [if_neg (by simp [hmp])]
  rw [if_neg (by rw [hct]; decide)]
  rw [hpl]
  exact ⟨rfl, rfl⟩

theorem scanStep_written_prefix (env : PyEnv) (relA : Str) (s : ScanState) (p : PyPart) :
    ∃ d, (scanStep env relA s p).written = s.written ++ d := by
  unfold scanStep
  split
  · exact ⟨[], by simp⟩
  split
  · exact ⟨[], by simp⟩
  split
  · exact ⟨[], by simp⟩
  cases hp : p.payload with
  | none => exact ⟨[], by simp⟩
  | some bs => exact ⟨[((pick_filename env p s.used).1, bs)], rfl⟩

theorem scanStep_assets_prefix (env : PyEnv) (relA : Str) (s : ScanState) (p : PyPart) :
    ∃ d, (scanStep env relA s p).assets = s.assets ++ d := by
  unfold scanStep
  split
  · exact ⟨[], by simp⟩
  split
  · exact ⟨[], by simp⟩
  split
  · exact ⟨[], by simp⟩
  cases hp : p.payload with
  | none => exact ⟨[], by simp⟩
  | some bs =>
    exact ⟨[⟨p.contentType, relA ++ (('/') :: (pick_filename env p s.used).1), cleanCid p,
      truthy p.contentLocation⟩], rfl⟩

theorem scanFold_written_prefix (env : PyEnv) (relA : Str) :
    ∀ (ps : List PyPart) (s : ScanState),
      ∃ d, ((ps.foldl (scanStep env relA) s).written) = s.written ++ d := by
  intro ps
  induction ps with
  | nil => intro s; exact ⟨[], by simp⟩
  | cons q qs ih =>
    intro s
    simp only [List.foldl_cons]
    obtain ⟨d1, hd1⟩ := scanStep_written_prefix env relA s q
    obtain ⟨d2, hd2⟩ := ih (scanStep env relA s q)
    exact ⟨d1 ++ d2, by rw [hd2, hd1, List.append_assoc]⟩

theorem scanFold_assets_prefix (env : PyEnv) (relA : Str) :
    ∀ (ps : List PyPart) (s : ScanState),
      ∃ d, ((ps.foldl (scanStep env relA) s).assets) = s.assets ++ d := by
  intro ps
  induction ps with
  | nil => intro s; exact ⟨[], by simp⟩
  | cons q qs ih =>
    intro s
    simp only [List.foldl_cons]
    obtain ⟨d1, hd1⟩ := scanStep_assets_prefix env relA s q
    obtain ⟨d2, hd2⟩ := ih (scanStep env relA s q)
    exact ⟨d1 ++ d2, by rw [hd2, hd1, List.append_assoc]⟩

theorem scanFold_html_isSome_of_mem (env : PyEnv) (relA : Str) :
    ∀ (ps : List PyPart) (s : ScanState),
      (∃ p ∈ ps, p.contentType = ("text/html").data) →
      ((ps.foldl (scanStep env relA) s).htmlText).isSome := by
  intro ps
  induction ps with
  | nil =>
    intro s h
    simp at h
  | cons q qs ih =>
    intro s h
    simp only [List.foldl_cons]
    rcases h with ⟨p, hp, hct⟩
    rcases List.mem_cons.mp hp with rfl | hp2
    · by_cases hnone : s.htmlText = none
      · have hset : (scanStep env relA s p).htmlText = some (decodeHtmlPayload env p) := by
          unfold scanStep
          rw [if_pos ⟨hct, hnone⟩]
        apply scanFold_htmlText_isSome
        rw [hset]
        simp
      · exact scanFold_htmlText_isSome env relA qs _
          (scanStep_htmlText_isSome env relA s p (Option.ne_none_iff_isSome.mp hnone))
    · exact ih _ ⟨p, hp2, hct⟩

/-- C3 amended: only the first text/html part becomes the primary document,
but a later text/html leaf part with a payload is not ignored — it is
materialized like any other asset: its payload is written to the resource
directory under a fresh file name and an AssetRecord carrying its identifier
and location is created (from which the Resolver derives ReplacementMap keys). -/
theorem c3_later_html_materialized (env : PyEnv) (relA : Str)
    (pre post : List PyPart) (hp2 : PyPart) (bs : List Nat)
    (hfirst : ∃ p ∈ pre, p.contentType = ("text/html").data)
    (hct : hp2.contentType = ("text/html").data)
    (hmp : hp2.isMultipart = false) (hpl : hp2.payload = some bs) :
    ((scanParts env relA (pre ++ hp2 :: post)).htmlText).isSome ∧
    ∃ fn : Str,
      ((fn, bs) ∈ (convertModel env relA (pre ++ hp2 :: post)).written ∧
       ∃ info ∈ (convertModel env relA (pre ++ hp2 :: post)).assets,
         info.content_type = ("text/html").data ∧ info.cid = cleanCid hp2 ∧
         info.location = truthy hp2.contentLocation) := by
  have hfold : scanParts env relA (pre ++ hp2 :: post)
      = (hp2 :: post).foldl (scanStep env relA) (pre.foldl (scanStep env relA) initScan) := by
    unfold scanParts
    rw [List.foldl_append]
  have hs1 : ((pre.foldl (scanStep env relA) initScan).htmlText).isSome :=
    scanFold_html_isSome_of_mem env relA pre initScan hfirst
  have hs1ne : (pre.foldl (scanStep env relA) initScan).htmlText ≠ none :=
    Option.isSome_iff_ne_none.mp hs1
  obtain ⟨hw2, ha2⟩ := scanStep_materializes env relA
    (pre.foldl (scanStep env relA) initScan) hp2 bs hs1ne hct hmp hpl
  constructor
  · rw [hfold]
    simp only [List.foldl_cons]
    apply scanFold_htmlText_isSome
    exact scanStep_htmlText_isSome env relA _ hp2 hs1
  · refine ⟨(pick_filename env hp2 (pre.foldl (scanStep env relA) initScan).used).1, ?_, ?_⟩
    · rw [convertModel_written, hfold]
      simp only [List.foldl_cons]
      obtain ⟨d, hd⟩ := scanFold_written_prefix env relA post
        (scanStep env relA (pre.foldl (scanStep env relA) initScan) hp2)
      rw [hd, hw2]
      apply List.mem_append_left
      apply List.mem_append_right
      simp
    · rw [convertModel_assets, hfold]
      simp only [List.foldl_cons]
      obtain ⟨d, hd⟩ := scanFold_assets_prefix env relA post
        (scanStep env relA (pre.foldl (scanStep env relA) initScan) hp2)
      rw [hd, ha2]
      refine ⟨⟨hp2.contentType,
        relA ++ (('/') :: (pick_filename env hp2 (pre.foldl (scanStep env relA) initScan).used).1),
        cleanCid hp2, truthy hp2.contentLocation⟩, ?_, by rw [hct], rfl, rfl⟩
      apply List.mem_append_left
      apply List.mem_append_right
      simp

/-- The first text/html part of the C3 archives. -/
def htmlPart1 : PyPart :=
  ⟨("text/html").data, none, none, false, some [60], some (("utf-8").data)⟩

/-- A second text/html part, carrying a Content-Location on the origin. -/
def htmlPart2 : PyPart :=
  ⟨("text/html").data, some (("https://data.seattle.gov/page2.html").data), none, false,
   some [61], none⟩

unseal List.merge List.mergeSort in
/-- C3 counterexample: in an archive with two text/html parts the second one is
not ignored — its payload is written into the resource directory, an
AssetRecord (typed text/html) is created for it, and ReplacementMap keys are
derived from its Content-Location. -/
theorem c3_counterexample :
    (convertModel defaultEnv (("assets").data) [htmlPart1, htmlPart2]).written
      = [((("page2.html.html").data), [61])] ∧
    ((convertModel defaultEnv (("assets").data) [htmlPart1, htmlPart2]).assets.map
      AssetInfo.content_type) = [("text/html").data] ∧
    (("https://data.seattle.gov/page2.html").data)
      ∈ (convertModel defaultEnv (("assets").data) [htmlPart1, htmlPart2]).keys := by
  refine ⟨by decide, by decide, by decide⟩

/-- Witness for the amended C3 on the two-part archive. -/
theorem c3_witness :
    ((scanParts defaultEnv (("assets").data) ([htmlPart1] ++ htmlPart2 :: [])).htmlText).isSome ∧
    ∃ fn : Str,
      ((fn, [61]) ∈ (convertModel defaultEnv (("assets").data)
          ([htmlPart1] ++ htmlPart2 :: [])).written ∧
       ∃ info ∈ (convertModel defaultEnv (("assets").data)
           ([htmlPart1] ++ htmlPart2 :: [])).assets,
         info.content_type = ("text/html").data ∧ info.cid = cleanCid htmlPart2 ∧
         info.location = truthy htmlPart2.contentLocation) :=
  c3_later_html_materialized defaultEnv (("assets").data) [htmlPart1] [] htmlPart2 [61]
    ⟨htmlPart1, by simp, by decide⟩ (by decide) rfl rfl

theorem pick_filename_fresh (env : PyEnv) (p : PyPart) (used : Finset Str) :
    (pick_filename env p used).1 ∉ used ∧
      (pick_filename env p used).2 = insert (pick_filename env p used).1 used :=
  ⟨pickLoopF_not_mem _ _ used (used.card + 1) 0
      (exists_free_candidate (deriveBase p) (ext_for_mime env.guessExtension p.contentType) used),
    rfl⟩

theorem scanStep_names_inv (env : PyEnv) (relA : Str) (s : ScanState) (p : PyPart)
    (h : ((s.written.map Prod.fst).Nodup) ∧ ∀ n ∈ s.written.map Prod.fst, n ∈ s.used) :
    (((scanStep env relA s p).written.map Prod.fst).Nodup) ∧
      ∀ n ∈ (scanStep env relA s p).written.map Prod.fst, n ∈ (scanStep env relA s p).used := by
  unfold scanStep
  split
  · exact h
  split
  · exact h
  split
  · exact h
  cases hp : p.payload with
  | none => exact h
  | some bs =>
    constructor
    · show ((s.written ++ [((pick_filename env p s.used).1, bs)]).map Prod.fst).Nodup
      rw [List.map_append, List.nodup_append]
      refine ⟨h.1, by simp, ?_⟩
      intro n hn hn2
      simp only [List.map_cons, List.map_nil, List.mem_singleton] at hn2
      subst hn2
      exact (pick_filename_fresh env p s.used).1 (h.2 _ hn)
    · intro n hn
      show n ∈ (pick_filename env p s.used).2
      rw [(pick_filename_fresh env p s.used).2]
      have hn2 : n ∈ (s.written ++ [((pick_filename env p s.used).1, bs)]).map Prod.fst := hn
      rw [List.map_append] at hn2
      rcases List.mem_append.mp hn2 with h1 | h2
      · exact Finset.mem_insert_of_mem (h.2 n h1)
      · simp only [List.map_cons, List.map_nil, List.mem_singleton] at h2
        subst h2
        exact Finset.mem_insert_self _ _

theorem scanFold_names_inv (env : PyEnv) (relA : Str) :
    ∀ (ps : List PyPart) (s : ScanState),
      (((s.written.map Prod.fst).Nodup) ∧ ∀ n ∈ s.written.map Prod.fst, n ∈ s.used) →
      ((((ps.foldl (scanStep env relA) s).written.map Prod.fst).Nodup) ∧
        ∀ n ∈ (ps.foldl (scanStep env relA) s).written.map Prod.fst,
          n ∈ (ps.foldl (scanStep env relA) s).used) := by
  intro ps
  induction ps with
  | nil => intro s h; exact h
  | cons q qs ih =>
    intro s h
    exact ih _ (scanStep_names_inv env relA s q h)

theorem pickLoopF_stop (base ext : Str) (used : Finset Str) (f i : Nat)
    (h : candName base ext i ∉ used) :
    pickLoopF base ext used (f + 1) i = candName base ext i := by
  simp only [pickLoopF, if_neg h]

theorem pickLoopF_step (base ext : Str) (used : Finset Str) (f i : Nat)
    (h : candName base ext i ∈ used) :
    pickLoopF base ext used (f + 1) i = pickLoopF base ext used f (i + 1) := by
  simp only [pickLoopF, if_pos h]

/-- C4: in every run the assigned local file names are pairwise distinct
(first conjunct); and when two parts derive the same base name and extension,
the first encountered gets `base.ext` and the second `base_1.ext`
(second conjunct, stated at the two corresponding `pick_filename` calls). -/
theorem c4_unique_filenames :
    (∀ (env : PyEnv) (relA : Str) (parts : List PyPart),
      (((convertModel env relA parts).written.map Prod.fst).Nodup)) ∧
    (∀ (env : PyEnv) (p1 p2 : PyPart) (used1 used2 : Finset Str) (b e : Str),
      deriveBase p1 = b → ext_for_mime env.guessExtension p1.contentType = e →
      deriveBase p2 = b → ext_for_mime env.guessExtension p2.contentType = e →
      b ++ e ∉ used1 →
      b ++ e ∈ used2 → (b ++ ('_' :: ('1') :: []) ++ e) ∉ used2 →
      (pick_filename env p1 used1).1 = b ++ e ∧
      (pick_filename env p2 used2).1 = b ++ ('_' :: ('1') :: []) ++ e) := by
  constructor
  · intro env relA parts
    rw [convertModel_written]
    exact (scanFold_names_inv env relA parts initScan ⟨by simp [initScan], by simp [initScan]⟩).1
  · intro env p1 p2 used1 used2 b e hb1 he1 hb2 he2 hfree1 hmem2 hfree2
    constructor
    · show pickLoopF (deriveBase p1) (ext_for_mime env.guessExtension p1.contentType)
        used1 (used1.card + 1) 0 = b ++ e
      rw [hb1, he1]
      rw [pickLoopF_stop b e used1 used1.card 0 (by rw [show candName b e 0 = b ++ e from rfl]; exact hfree1)]
      rfl
    · show pickLoopF (deriveBase p2) (ext_for_mime env.guessExtension p2.contentType)
        used2 (used2.card + 1) 0 = b ++ ('_' :: ('1') :: []) ++ e
      rw [hb2, he2]
      obtain ⟨m, hm⟩ : ∃ m, used2.card = m + 1 := by
        have : 0 < used2.card := Finset.card_pos.mpr ⟨b ++ e, hmem2⟩
        exact ⟨used2.card - 1, by omega⟩
      rw [hm]
      rw [pickLoopF_step b e used2 (m + 1) 0 (by rw [show candName b e 0 = b ++ e from rfl]; exact hmem2)]
      rw [pickLoopF_stop b e used2 m 1 (by rw [show candName b e 1 = b ++ ('_' :: ('1') :: []) ++ e from rfl]; exact hfree2)]
      rfl

/-- Witness for C4 at two identifier-free PNG parts. -/
theorem c4_witness :
    (pick_filename defaultEnv pngPart ∅).1 = ("asset").data ++ ((".png").data) ∧
    (pick_filename defaultEnv pngPart (insert (("asset").data ++ ((".png").data)) ∅)).1
      = ("asset").data ++ ('_' :: ('1') :: []) ++ ((".png").data) :=
  c4_unique_filenames.2 defaultEnv pngPart pngPart ∅
    (insert (("asset").data ++ ((".png").data)) ∅)
    (("asset").data) ((".png").data)
    (by decide) (by decide) (by decide) (by decide) (by decide) (by decide) (by decide)
